import Mathlib

/-!
# Verification of the go_face_recognition core against its specification

Shallow embedding of the repository's pipeline orchestrator, matching
engine and descriptor codec.  Points and rectangle coordinates are Go
`int`s, modelled as `Int`.  Descriptor components (`float64`) are modelled
as `ℚ` for the matching engine (all refuting inputs use values on which
IEEE double arithmetic is exact), and as 64-bit words (`Nat < 2^64`, the
`math.Float64bits` pattern) for the byte-level codec, which treats every
double purely as its 8-byte little-endian bit pattern.

Go slices are modelled as `List`; where Go's in-place `append` semantics
over a shared backing array matters (the lip-contour assembly in
`FaceLandmarks`), the backing array is threaded explicitly and each
read/write step is annotated with the source line it embeds.
-/

namespace GoFaceRec

/-- `Point` from recognizer.go: a 2D landmark coordinate (Go `int` fields). -/
structure Point where
  x : Int
  y : Int
deriving DecidableEq, Repr, Inhabited

/-- `Rectangle` from recognizer.go: face bounding box in CSS order
(top, right, bottom, left; Go `int` fields). -/
structure Rectangle where
  top : Int
  right : Int
  bottom : Int
  left : Int
deriving DecidableEq, Repr, Inhabited

/-- `trimRectToBounds` (part_001 lines 363-370): floors `Top`/`Left` at 0 and
caps `Right`/`Bottom` at `width`/`height`; no cap on top/left, no floor on
right/bottom. -/
def trimRectToBounds (rect : Rectangle) (height width : Int) : Rectangle :=
  { top := max rect.top 0
    right := min rect.right width
    bottom := min rect.bottom height
    left := max rect.left 0 }

/-- `RawLandmarks` from recognizer.go: raw landmark points for one face. -/
structure RawLandmarks where
  points : List Point
deriving DecidableEq, Repr, Inhabited

/-- `FaceLandmarks` from recognizer.go: the nine named contours of the
68-point ("large") model.  Go slice fields are modelled as lists of the
values they view at function return. -/
structure FaceLandmarksS where
  chin : List Point
  leftEyebrow : List Point
  rightEyebrow : List Point
  noseBridge : List Point
  noseTip : List Point
  leftEye : List Point
  rightEye : List Point
  topLip : List Point
  bottomLip : List Point
deriving DecidableEq, Repr, Inhabited

/-- Contiguous view `l[a:b]` of a backing array, as Go slicing reads it. -/
def sliceView (l : List Point) (a b : Nat) : List Point :=
  (l.drop a).take (b - a)

/-- The per-face body of `FaceLandmarks` (part_001 lines 215-230), embedding
Go's slice/append semantics over the shared backing array `r.Points`
(length 68, capacity 68, from `make` at line 194).  Both `append`s stay
in place because length never exceeds capacity, so appended elements are
written into the backing array; argument reads happen before the call's
writes, and the gc compiler evaluates call arguments left to right.

Line 227 (`TopLip`): `append(r.Points[48:55], P[64], P[63], P[62], P[61], P[60])`
reads indices 64,63,62,61,60, then writes them at backing indices 55-59
(len 7, cap 20); the result views backing `[48,60)`.

Line 228 (`BottomLip`): inner `append(r.Points[54:60], r.Points[48])` reads
index 48 then writes it at backing index 60 (len 6, cap 14); the outer
append then reads indices 60 (now holding the value of index 48), 67, 66,
65, 64 and writes them at backing indices 61-65; the result views backing
`[54,66)`.  Every other contour views an untouched range below index 55. -/
def faceLandmarksStructure (pts : List Point) : FaceLandmarksS :=
  if pts.length < 68 then default
  else
    let a0 := pts
    -- line 227: argument reads for TopLip's append
    let t1 := a0.getD 64 default
    let t2 := a0.getD 63 default
    let t3 := a0.getD 62 default
    let t4 := a0.getD 61 default
    let t5 := a0.getD 60 default
    -- line 227: in-place append writes at backing indices 55..59
    let a1 := ((((a0.set 55 t1).set 56 t2).set 57 t3).set 58 t4).set 59 t5
    -- line 228, inner append: read index 48, write at backing index 60
    let b1 := a1.getD 48 default
    let a2 := a1.set 60 b1
    -- line 228, outer append: argument reads (index 60 reads the value just
    -- written by the inner append), then writes at backing indices 61..65
    let c1 := a2.getD 60 default
    let c2 := a2.getD 67 default
    let c3 := a2.getD 66 default
    let c4 := a2.getD 65 default
    let c5 := a2.getD 64 default
    let a3 := ((((a2.set 61 c1).set 62 c2).set 63 c3).set 64 c4).set 65 c5
    { chin := sliceView a3 0 17
      leftEyebrow := sliceView a3 17 22
      rightEyebrow := sliceView a3 22 27
      noseBridge := sliceView a3 27 31
      noseTip := sliceView a3 31 36
      leftEye := sliceView a3 36 42
      rightEye := sliceView a3 42 48
      topLip := sliceView a3 48 60
      bottomLip := sliceView a3 54 66 }

/-- `NormalizeEncoding` (part_004 lines 277-294) over exact arithmetic.
The source computes `sum` of squared components, returns the input when
`sum == 0`, and otherwise multiplies every component by
`magnitude := 1.0 / sum` (the comment there reads "Avoid sqrt for
efficiency").  Components are `ℚ`; on descriptors whose components and
squares are exactly representable doubles this agrees bit-for-bit with
the float64 run. -/
def NormalizeEncoding (encoding : List ℚ) : List ℚ :=
  let sum := (encoding.map (fun v => v * v)).sum
  if sum = 0 then encoding
  else encoding.map (fun v => v * (1 / sum))

/-- Euclidean norm squared of a descriptor (sum of squared components). -/
def sumSquares (encoding : List ℚ) : ℚ :=
  (encoding.map (fun v => v * v)).sum

/-- The scan loop of `FindBestMatch` (part_007 lines 77-85): walks the
distance list with index `i`, replacing the accumulator `(bestIndex,
bestDistance)` whenever `distance <= tolerance && distance < bestDistance`. -/
def findBestMatchScan : List ℚ → ℚ → Nat → Int × ℚ → Int × ℚ
  | [], _, _, acc => acc
  | d :: rest, tol, i, acc =>
    if d ≤ tol ∧ d < acc.2 then findBestMatchScan rest tol (i + 1) (Int.ofNat i, d)
    else findBestMatchScan rest tol (i + 1) acc

/-- `FindBestMatch` (part_007 lines 66-92) as a function of the gallery's
distance list (the output of `FaceDistances` at line 75, one Euclidean
distance per gallery entry in scan order): empty gallery returns `(-1, 0)`;
a non-positive tolerance is replaced by the default `0.6`; the scan starts
from `bestDistance = tolerance + 1`; if no candidate qualified the result
is `(-1, 0)`. -/
def findBestMatchDists (distances : List ℚ) (tolerance : ℚ) : Int × ℚ :=
  if distances.length = 0 then (-1, 0)
  else
    let tol := if tolerance ≤ 0 then (3 / 5 : ℚ) else tolerance
    let r := findBestMatchScan distances tol 0 (-1, tol + 1)
    if r.1 = -1 then (-1, 0) else r

/-! ## Descriptor codec (part_004 lines 178-242)

Bytes are `Nat`s below 256; a `float64` is its `math.Float64bits` word, a
`Nat` below `2^64`, written as 8 little-endian bytes. -/

/-- The `n` little-endian base-256 digits of `w` (the bytes
`binary.Write(..., binary.LittleEndian, v)` emits for an `n`-byte value;
for `n = 4` this is Go's `uint32(len)` truncation composed with the write). -/
def natLE : Nat → Nat → List Nat
  | 0, _ => []
  | n + 1, w => (w % 256) :: natLE n (w / 256)

/-- Recombine little-endian bytes into a `Nat` (what `binary.Read` does). -/
def bytesToNatLE (bs : List Nat) : Nat :=
  bs.foldr (fun b acc => b + 256 * acc) 0

/-- `io.ReadFull` of `n` bytes from a byte stream: fails when fewer than `n`
bytes remain, otherwise yields the bytes read and the remaining stream.
`binary.Read` of any fixed-size value does exactly this. -/
def readBytes (n : Nat) (data : List Nat) : Option (List Nat × List Nat) :=
  if data.length < n then none else some (data.take n, data.drop n)

/-- `binary.Read` of one little-endian `float64` (8 bytes) as its bit word. -/
def readF64 (data : List Nat) : Option (Nat × List Nat) :=
  (readBytes 8 data).map (fun br => (bytesToNatLE br.1, br.2))

/-- Read `n` consecutive `float64` values, failing on the first short read
(the inner loop of `BytesToEncoding` lines 191-197 and of `ReadEncodings`
lines 234-238). -/
def readF64s : Nat → List Nat → Option (List Nat × List Nat)
  | 0, data => some ([], data)
  | n + 1, data =>
    (readF64 data).bind fun vr =>
      (readF64s n vr.2).map fun vs => (vr.1 :: vs.1, vs.2)

/-- The words held in the first `8*n` bytes of a stream, little-endian. -/
def leWords : Nat → List Nat → List Nat
  | 0, _ => []
  | n + 1, data => bytesToNatLE (data.take 8) :: leWords n (data.drop 8)

/-- `EncodingToBytes` (part_004 lines 178-184): the 1024-byte little-endian
serialization of a 128-word descriptor. -/
def EncodingToBytes (encoding : List Nat) : List Nat :=
  (encoding.map (natLE 8)).flatten

/-- `BytesToEncoding` (part_004 lines 187-200): reads exactly 128 `float64`
values from the front of `data`, leaving any trailing bytes unread in the
`bytes.Reader`; any short read aborts with an error (`none`). -/
def BytesToEncoding (data : List Nat) : Option (List Nat) :=
  (readF64s 128 data).map Prod.fst

/-- `WriteEncodings` (part_004 lines 204-220): a 4-byte little-endian
`uint32(len(encodings))` count (the conversion truncates mod `2^32`)
followed by each encoding's 1024-byte block. -/
def WriteEncodings (encodings : List (List Nat)) : List Nat :=
  natLE 4 encodings.length ++ (encodings.map EncodingToBytes).flatten

/-- The count-driven loop of `ReadEncodings` (lines 233-239): read `n`
descriptors of 128 doubles each, failing on the first short read. -/
def readEncodingsLoop : Nat → List Nat → Option (List (List Nat) × List Nat)
  | 0, data => some ([], data)
  | n + 1, data =>
    (readF64s 128 data).bind fun er =>
      (readEncodingsLoop n er.2).map fun es => (er.1 :: es.1, es.2)

/-- `ReadEncodings` (part_004 lines 223-242): read a 4-byte little-endian
count, then that many 128-double descriptors; any short read yields an
error (`none`); bytes past the announced payload stay unread. -/
def ReadEncodings (data : List Nat) : Option (List (List Nat)) :=
  (readBytes 4 data).bind fun cr =>
    (readEncodingsLoop (bytesToNatLE cr.1) cr.2).map Prod.fst

/-! ## Pipeline orchestration (part_001) and the inference boundary (part_005)

The native inference stages (HOG detection, shape prediction, the ResNet
descriptor network) are out-of-scope numerics; each pipeline operation is
embedded as a function of the boundary's reply.  A reply of `none` models
the C side returning `nullptr` (exception, or required model not loaded),
after which the Go caller observes a null/empty result; `some` carries the
arrays the Go code would convert. -/

/-- The typed error conditions the Go pipeline operations can return
(part_006 lines 5-51 defines the error types; the pipeline operations in
part_001 only ever construct `RecognizerNotInitializedError`). -/
inductive PipeErr where
  | notInitialized
deriving DecidableEq, Repr

/-- Group a flat landmark array (faces * numPoints points, the layout
`facerec_landmarks` returns) into per-face `RawLandmarks`, as the
conversion loop at part_001 lines 190-202 does. -/
def chunkPoints (pts : List Point) (numFaces numPoints : Nat) : List RawLandmarks :=
  (List.range numFaces).map (fun i => ⟨(pts.drop (i * numPoints)).take numPoints⟩)

/-- `FaceLocations` (part_001 lines 77-124) as a function of the boundary
reply from `facerec_detect`.  `none` covers both `nullptr` (exception in
the C layer, or HOG not loaded) and a genuine zero-detection result: in
every such case `numFaces` is 0 and the Go code returns an empty slice
with a nil error (line 102-104).  On `some rects` every rectangle is
clamped to the image bounds (line 120). -/
def faceLocationsModel (initialized : Bool) (detReply : Option (List Rectangle))
    (height width : Int) : Except PipeErr (List Rectangle) :=
  if initialized = false then .error .notInitialized
  else
    match detReply with
    | none => .ok []
    | some rects => .ok (rects.map (fun r => trimRectToBounds r height width))

/-- `FaceLandmarksDetect` (part_001 lines 127-205) for a caller-provided
(non-nil) box list, as a function of the boundary reply from
`facerec_landmarks` (a flat array of `len(faceLocations) * 68` points for
the large model).  Empty box list short-circuits to an empty success
(line 146-148); a `nil` C result returns an empty slice with a nil error
(lines 184-186). -/
def faceLandmarksDetectModel (initialized : Bool) (faceLocations : List Rectangle)
    (landReply : Option (List Point)) : Except PipeErr (List RawLandmarks) :=
  if initialized = false then .error .notInitialized
  else if faceLocations.length = 0 then .ok []
  else
    match landReply with
    | none => .ok []
    | some pts => .ok (chunkPoints pts faceLocations.length 68)

/-- `FaceLandmarks` (part_001 lines 208-233): structure each raw landmark
set; raw sets shorter than 68 points leave the zero-value entry
(the guard is folded into `faceLandmarksStructure`). -/
def faceLandmarksModel (initialized : Bool) (faceLocations : List Rectangle)
    (landReply : Option (List Point)) : Except PipeErr (List FaceLandmarksS) :=
  match faceLandmarksDetectModel initialized faceLocations landReply with
  | .error e => .error e
  | .ok raw => .ok (raw.map (fun r => faceLandmarksStructure r.points))

/-- `FaceEncodings` (part_001 lines 258-328) with the large landmark model,
as a function of the two boundary replies.  It re-enters
`FaceLandmarksDetect`; an empty raw list short-circuits to an empty
success (lines 278-280); a `nil` result from `facerec_encode` returns an
empty slice with a nil error (lines 312-314).  `encReply` carries the
`len(raw)` descriptors (each 128 doubles) the C layer would return. -/
def faceEncodingsModel (initialized : Bool) (faceLocations : List Rectangle)
    (landReply : Option (List Point)) (encReply : Option (List (List ℚ))) :
    Except PipeErr (List (List ℚ)) :=
  match faceLandmarksDetectModel initialized faceLocations landReply with
  | .error e => .error e
  | .ok raw =>
    if raw.length = 0 then .ok []
    else
      match encReply with
      | none => .ok []
      | some encs => .ok encs

/-- `Face` from recognizer.go: rectangle, optional landmarks (the Go
`interface{}` field, nil when unset) and a descriptor. -/
structure Face where
  rectangle : Rectangle
  landmarks : Option FaceLandmarksS
  encoding : List ℚ
deriving DecidableEq, Repr

/-- The assembly loop of `DetectAndEncode` (part_001 lines 347-356):
`faces[i].Encoding = encodings[i]` is unguarded, so an out-of-range index
is a runtime panic, modelled as `none`; `faces[i].Landmarks` is only set
when `i < len(landmarks)` (line 353), hence the `Option` lookup. -/
def assembleFaces (landmarks : List FaceLandmarksS) (encodings : List (List ℚ)) :
    List Rectangle → Nat → Option (List Face)
  | [], _ => some []
  | loc :: rest, i =>
    match encodings[i]? with
    | none => none
    | some e =>
      (assembleFaces landmarks encodings rest (i + 1)).map
        (fun fs => { rectangle := loc, landmarks := landmarks[i]?, encoding := e } :: fs)

/-- `DetectAndEncode` (part_001 lines 331-359) given the detected locations
and the boundary replies of the landmark and encoding stages: runs
`FaceLandmarks` then `FaceEncodings` (both re-entering the landmark stage
with the same reply), then assembles one `Face` per location.  The outer
`Option` is `none` when the assembly loop panics. -/
def detectAndEncodeModel (locations : List Rectangle) (landReply : Option (List Point))
    (encReply : Option (List (List ℚ))) : Except PipeErr (Option (List Face)) :=
  match faceLandmarksModel true locations landReply with
  | .error e => .error e
  | .ok landmarks =>
    match faceEncodingsModel true locations landReply encReply with
    | .error e => .error e
    | .ok encodings => .ok (assembleFaces landmarks encodings locations 0)

/-- Which detector the boundary ran, if any. -/
inductive Detector where
  | hog
  | cnn
deriving DecidableEq, Repr

/-- The detector-selection logic of `facerec_detect` (part_005 lines
141-178): the `use_cnn` flag is ignored ("CNN not supported in this
simplified version"); the HOG detector runs whenever it is loaded, else
the call returns `nullptr`. -/
def facerecDetectSelect (hogLoaded : Bool) (_useCNN : Bool) : Option Detector :=
  if hogLoaded then some Detector.hog else none

/-- Observable outcome of a `FaceLocations` call with respect to detector
dispatch. -/
inductive DetectOutcome where
  | errNotInitialized
  | ranHog
  | ranCnn
  | nullNoDetector
deriving DecidableEq, Repr

/-- The detector-dispatch path of `FaceLocations` (part_001 lines 77-124):
`useCNN := 1` exactly when the requested variant string equals `"cnn"`
(lines 93-96; `DetectionModel` is a string type with constants `"hog"` and
`"cnn"`), passed to `facerec_detect`, which ignores it.  No error
condition other than `NotInitialized` exists on this path. -/
def faceLocationsDispatch (initialized hogLoaded : Bool) (model : String) : DetectOutcome :=
  if initialized = false then .errNotInitialized
  else
    match facerecDetectSelect hogLoaded (model == "cnn") with
    | some Detector.hog => .ranHog
    | some Detector.cnn => .ranCnn
    | none => .nullNoDetector

/-! ## Reference function and concrete instances used by the proofs -/

/-- First argmin of the entries `d` with `d ≤ tol ∧ d < bd` in a distance
list, with its index: the functional content of the scan loop of
`FindBestMatch` started at best distance `bd`. -/
def firstArgminBelow : List ℚ → ℚ → ℚ → Option (Nat × ℚ)
  | [], _, _ => none
  | d :: rest, tol, bd =>
    if d ≤ tol ∧ d < bd then
      match firstArgminBelow rest tol d with
      | none => some (0, d)
      | some (j, m) => some (j + 1, m)
    else
      match firstArgminBelow rest tol bd with
      | none => none
      | some (j, m) => some (j + 1, m)

/-- A 68-point raw landmark set with pairwise distinct points: point `i`
is `(i, 0)`. -/
def ptsDemo : List Point := (List.range 68).map (fun i => ⟨i, 0⟩)

/-- A concrete detected bounding box. -/
def rectDemo : Rectangle := ⟨0, 10, 10, 0⟩

/-- A flat 68-point boundary reply (one face). -/
def ptsFlat68 : List Point := List.replicate 68 ⟨0, 0⟩

/-- The descriptor `(2, 0, ..., 0)` (128 components); all values involved
in normalizing it are exactly representable doubles. -/
def encTwoQ : List ℚ := (2 : ℚ) :: List.replicate 127 0

/-- The spec's `BestMatch` example: gallery distances `{0.9, 0.3, 0.3}`. -/
def distancesDemo : List ℚ := [9 / 10, 3 / 10, 3 / 10]

/-- The all-zero 128-word descriptor (bit pattern of 128 `0.0` doubles). -/
def zeroEnc128 : List Nat := List.replicate 128 0

/-- A gallery of `2^32` descriptors: its `uint32` count truncates to 0. -/
def encsBig : List (List Nat) := List.replicate (2 ^ 32) zeroEnc128

/-! ## Theorems -/

/-- C1: on the 68 distinct raw points `(i, 0)`, the structured-landmarks
operation produces the claimed upper-lip contour, but the lower-lip
contour is `[P54, P64, P63, P62, P61, P60, P48, P48, P67, P66, P65, P64]`
— not the claimed `[P54, ..., P59, P48, P60, P67, P66, P65, P64]` —
because the in-place `append`s share `r.Points`'s backing array: building
`TopLip` overwrites backing indices 55-59 and the inner `BottomLip`
append overwrites index 60 before positions 2-6 and 8 of `BottomLip` are
read.  (The claim's two spot-checks — upper lip ends at raw point 60,
lower lip's 7th point is raw point 48 — do hold.) -/
theorem faceLandmarks_bottomLip_aliasing :
    (faceLandmarksStructure ptsDemo).topLip =
      [⟨48, 0⟩, ⟨49, 0⟩, ⟨50, 0⟩, ⟨51, 0⟩, ⟨52, 0⟩, ⟨53, 0⟩, ⟨54, 0⟩,
       ⟨64, 0⟩, ⟨63, 0⟩, ⟨62, 0⟩, ⟨61, 0⟩, ⟨60, 0⟩] ∧
    (faceLandmarksStructure ptsDemo).bottomLip =
      [⟨54, 0⟩, ⟨64, 0⟩, ⟨63, 0⟩, ⟨62, 0⟩, ⟨61, 0⟩, ⟨60, 0⟩,
       ⟨48, 0⟩, ⟨48, 0⟩, ⟨67, 0⟩, ⟨66, 0⟩, ⟨65, 0⟩, ⟨64, 0⟩] ∧
    (faceLandmarksStructure ptsDemo).bottomLip ≠
      [⟨54, 0⟩, ⟨55, 0⟩, ⟨56, 0⟩, ⟨57, 0⟩, ⟨58, 0⟩, ⟨59, 0⟩,
       ⟨48, 0⟩, ⟨60, 0⟩, ⟨67, 0⟩, ⟨66, 0⟩, ⟨65, 0⟩, ⟨64, 0⟩] ∧
    (faceLandmarksStructure ptsDemo).bottomLip.getD 6 default = ⟨48, 0⟩ := by
  decide

/-- C2: `NormalizeEncoding` does not return a unit-norm vector: on the
descriptor `(2, 0, ..., 0)` (sum of squares `4 ≠ 0`, true magnitude `2`)
it multiplies every component by `1/4` (the raw inverse sum of squares,
not `1/sqrt`), yielding `(1/2, 0, ..., 0)` whose squared norm is `1/4`,
not `1`.  Every value here is an exactly representable double, so the
float64 run agrees bit-for-bit.  This contradicts the function's own doc
comment ("normalizes a face encoding to unit length"). -/
theorem normalizeEncoding_not_unit_norm :
    sumSquares encTwoQ = 4 ∧
    NormalizeEncoding encTwoQ = (1 / 2 : ℚ) :: List.replicate 127 0 ∧
    sumSquares (NormalizeEncoding encTwoQ) = 1 / 4 := by
  refine ⟨?_, ?_, ?_⟩ <;>
    simp [sumSquares, NormalizeEncoding, encTwoQ, List.map_replicate,
      List.sum_replicate] <;> norm_num

/-- C4: `DetectAndEncode` faults on a partial sub-stage result: with one
detected box and a landmark-stage boundary reply of null, the landmark
and encoding stages both yield empty (non-error) lists, and the assembly
loop's unguarded `encodings[i]` then panics (index out of range), modelled
as the inner `none` — instead of returning one `Face` with zero-filled
optional fields. -/
theorem detectAndEncode_partial_stage_panic :
    detectAndEncodeModel [rectDemo] none none = Except.ok none ∧
    assembleFaces [] [] [rectDemo] 0 = none := by
  exact ⟨rfl, rfl⟩

/-- C5 counterexample: requesting the CNN detection variant on an
initialized recognizer with the HOG detector loaded silently runs the HOG
detector — the claimed UnsupportedModel failure does not occur (no such
error condition exists on this path). -/
theorem faceLocations_cnn_runs_hog :
    faceLocationsDispatch true true "cnn" = DetectOutcome.ranHog := by
  rfl

/-- C5 amended: the requested detector variant is ignored entirely — for
every variant string (including `"cnn"` and unrecognized variants), an
initialized recognizer runs the HOG detector whenever it is loaded and
otherwise returns the null (empty) result; no UnsupportedModel condition
is ever raised. -/
theorem faceLocations_variant_ignored (hogLoaded : Bool) (model : String) :
    faceLocationsDispatch true hogLoaded model =
      if hogLoaded then DetectOutcome.ranHog else DetectOutcome.nullNoDetector := by
  cases hogLoaded <;> simp [faceLocationsDispatch, facerecDetectSelect]

/-- C5 witness: concrete instances of the amended statement. -/
theorem faceLocations_variant_ignored_witness :
    faceLocationsDispatch true true "mmod" = DetectOutcome.ranHog ∧
    faceLocationsDispatch true false "cnn" = DetectOutcome.nullNoDetector := by
  exact ⟨faceLocations_variant_ignored true "mmod", faceLocations_variant_ignored false "cnn"⟩

/-- C6 counterexample: with a non-empty input, a null boundary reply makes
each pipeline operation return an empty result with a nil error — a
non-error empty result, not a typed error condition. -/
theorem pipeline_null_reply_empty_success :
    faceLandmarksDetectModel true [rectDemo] none = Except.ok [] ∧
    faceEncodingsModel true [rectDemo] (some ptsFlat68) none = Except.ok [] ∧
    faceLocationsModel true none 100 100 = Except.ok [] := by
  exact ⟨rfl, rfl, rfl⟩

/-- C6 amended: whenever the inference boundary signals failure by
returning a null result for a non-empty input, `FaceLocations`,
`FaceLandmarksDetect` and `FaceEncodings` (the latter whether the landmark
or the encoding stage fails) all return the empty successful result — the
side-channel error is never surfaced as a typed error on these paths. -/
theorem pipeline_null_reply_no_error (locs : List Rectangle) (pts : List Point)
    (height width : Int) (h : locs ≠ []) :
    faceLandmarksDetectModel true locs none = Except.ok [] ∧
    faceEncodingsModel true locs none none = Except.ok [] ∧
    faceEncodingsModel true locs (some pts) none = Except.ok [] ∧
    faceLocationsModel true none height width = Except.ok [] := by
  have hl : locs.length ≠ 0 := by
    simpa [List.length_eq_zero] using h
  refine ⟨?_, ?_, ?_, ?_⟩ <;>
    simp [faceLandmarksDetectModel, faceEncodingsModel, faceLocationsModel,
      chunkPoints, hl]

/-- C6 witness: the amended statement at a one-box input. -/
theorem pipeline_null_reply_no_error_witness :
    faceLandmarksDetectModel true [rectDemo] none = Except.ok [] ∧
    faceEncodingsModel true [rectDemo] none none = Except.ok [] ∧
    faceEncodingsModel true [rectDemo] (some ptsFlat68) none = Except.ok [] ∧
    faceLocationsModel true none 100 200 = Except.ok [] := by
  exact pipeline_null_reply_no_error [rectDemo] ptsFlat68 100 200 (by decide)

/-- C7 counterexample: clamping does not replace every coordinate with
`max(0, min(bound, coordinate))` — the top coordinate 500 of a box in a
100×100 image is left at 500 (only floored at 0, never capped at the
height), so the clamped box's top coordinate lies outside `[0, height]`. -/
theorem trimRect_no_upper_clamp :
    trimRectToBounds ⟨500, 50, 600, 10⟩ 100 100 = ⟨500, 50, 100, 10⟩ ∧
    (trimRectToBounds ⟨500, 50, 600, 10⟩ 100 100).top ≠ max 0 (min 100 500) ∧
    ¬(trimRectToBounds ⟨500, 50, 600, 10⟩ 100 100).top ≤ 100 := by
  decide

/-- C7 amended: clamping floors top/left at 0 and caps right/bottom at
height/width only (top/left are never capped, right/bottom never
floored); consequently every point of the clamped box (when it is
non-degenerate) lies within `[0,width]×[0,height]`, and clamping is
idempotent. -/
theorem trimRect_bounds_and_idempotent (rect : Rectangle) (height width : Int) :
    trimRectToBounds rect height width =
      ⟨max rect.top 0, min rect.right width, min rect.bottom height, max rect.left 0⟩ ∧
    0 ≤ (trimRectToBounds rect height width).top ∧
    0 ≤ (trimRectToBounds rect height width).left ∧
    (trimRectToBounds rect height width).right ≤ width ∧
    (trimRectToBounds rect height width).bottom ≤ height ∧
    trimRectToBounds (trimRectToBounds rect height width) height width =
      trimRectToBounds rect height width ∧
    (∀ x y : Int, (trimRectToBounds rect height width).left ≤ x →
      x ≤ (trimRectToBounds rect height width).right →
      (trimRectToBounds rect height width).top ≤ y →
      y ≤ (trimRectToBounds rect height width).bottom →
      0 ≤ x ∧ x ≤ width ∧ 0 ≤ y ∧ y ≤ height) := by
  refine ⟨rfl, ?_, ?_, ?_, ?_, ?_, ?_⟩ <;>
    simp only [trimRectToBounds] <;>
    first
      | omega
      | (simp only [Rectangle.mk.injEq]; omega)

/-- C7 witness: the amended statement at a concrete box and image
(box `⟨-5, 120, 80, -3⟩` in a 100×100 image; the clamped box is
`⟨0, 100, 80, 0⟩`), with the containment conjunct instantiated at the
interior point `(50, 50)`. -/
theorem trimRect_bounds_and_idempotent_witness :
    trimRectToBounds ⟨-5, 120, 80, -3⟩ 100 100 = ⟨0, 100, 80, 0⟩ ∧
    trimRectToBounds (trimRectToBounds ⟨-5, 120, 80, -3⟩ 100 100) 100 100 =
      trimRectToBounds ⟨-5, 120, 80, -3⟩ 100 100 ∧
    (0 ≤ (50 : Int) ∧ (50 : Int) ≤ 100 ∧ 0 ≤ (50 : Int) ∧ (50 : Int) ≤ 100) := by
  refine ⟨by decide, (trimRect_bounds_and_idempotent ⟨-5, 120, 80, -3⟩ 100 100).2.2.2.2.2.1,
    (trimRect_bounds_and_idempotent ⟨-5, 120, 80, -3⟩ 100 100).2.2.2.2.2.2 50 50
      (by decide) (by decide) (by decide) (by decide)⟩

/-! ### Best-match scan lemmas -/

theorem findBestMatchScan_eq (tol : ℚ) (l : List ℚ) :
    ∀ (i : Nat) (bi : Int) (bd : ℚ),
    findBestMatchScan l tol i (bi, bd) =
      match firstArgminBelow l tol bd with
      | none => (bi, bd)
      | some (j, m) => (Int.ofNat (i + j), m) := by
  induction l with
  | nil =>
    intro i bi bd
    simp [findBestMatchScan, firstArgminBelow]
  | cons d rest ih =>
    intro i bi bd
    by_cases h : d ≤ tol ∧ d < bd
    · rw [findBestMatchScan, if_pos (by simpa using h), ih]
      cases hfa : firstArgminBelow rest tol d with
      | none => simp [firstArgminBelow, h, hfa]
      | some p =>
        obtain ⟨j, m⟩ := p
        simp only [firstArgminBelow, if_pos h, hfa]
        have harith : i + 1 + j = i + (j + 1) := by omega
        rw [harith]
    · rw [findBestMatchScan, if_neg (by simpa using h), ih]
      cases hfa : firstArgminBelow rest tol bd with
      | none => simp [firstArgminBelow, h, hfa]
      | some p =>
        obtain ⟨j, m⟩ := p
        simp only [firstArgminBelow, if_neg h, hfa]
        have harith : i + 1 + j = i + (j + 1) := by omega
        rw [harith]

theorem firstArgminBelow_none_iff (tol : ℚ) :
    ∀ (l : List ℚ) (bd : ℚ),
    firstArgminBelow l tol bd = none ↔ ∀ d ∈ l, ¬(d ≤ tol ∧ d < bd) := by
  intro l
  induction l with
  | nil => intro bd; simp [firstArgminBelow]
  | cons a rest ih =>
    intro bd
    by_cases h : a ≤ tol ∧ a < bd
    · constructor
      · intro hnone
        exfalso
        cases hfa : firstArgminBelow rest tol a with
        | none => rw [firstArgminBelow, if_pos h, hfa] at hnone; simp at hnone
        | some p => obtain ⟨j, m⟩ := p; rw [firstArgminBelow, if_pos h, hfa] at hnone; simp at hnone
      · intro hall
        exact absurd h (hall a (List.mem_cons_self a rest))
    · rw [firstArgminBelow, if_neg h]
      cases hfa : firstArgminBelow rest tol bd with
      | none =>
        simp only [eq_self_iff_true, true_iff]
        intro d hd
        rcases List.mem_cons.mp hd with rfl | hdrest
        · exact h
        · exact (ih bd).mp hfa d hdrest
      | some p =>
        obtain ⟨j, m⟩ := p
        constructor
        · intro hcontra
          exact absurd hcontra (by simp)
        · intro hall
          have hrest : firstArgminBelow rest tol bd = none :=
            (ih bd).mpr (fun d hd => hall d (List.mem_cons_of_mem a hd))
          rw [hrest] at hfa
          exact absurd hfa (by simp)

theorem firstArgminBelow_some_spec (tol : ℚ) :
    ∀ (l : List ℚ) (bd : ℚ) (j : Nat) (m : ℚ),
      firstArgminBelow l tol bd = some (j, m) →
      ∃ hj : j < l.length,
        l.get ⟨j, hj⟩ = m ∧ m ≤ tol ∧ m < bd ∧
        (∀ d ∈ l, d ≤ tol → d < bd → m ≤ d) ∧
        (∀ d ∈ l.take j, d ≤ tol → d < bd → m < d) := by
  intro l
  induction l with
  | nil =>
    intro bd j m hsome
    simp [firstArgminBelow] at hsome
  | cons a rest ih =>
    intro bd j m hsome
    by_cases h : a ≤ tol ∧ a < bd
    · rw [firstArgminBelow, if_pos h] at hsome
      cases hfa : firstArgminBelow rest tol a with
      | none =>
        rw [hfa] at hsome
        simp only [Option.some.injEq, Prod.mk.injEq] at hsome
        obtain ⟨rfl, rfl⟩ := hsome
        refine ⟨by simp, by simp, h.1, h.2, ?_, by simp⟩
        intro d hd hdtol _
        rcases List.mem_cons.mp hd with rfl | hdrest
        · exact le_refl d
        · have hnot := (firstArgminBelow_none_iff tol rest a).mp hfa d hdrest
          have hnl : ¬d < a := fun hlt => hnot ⟨hdtol, hlt⟩
          exact le_of_not_lt hnl
      | some p =>
        obtain ⟨j1, m1⟩ := p
        rw [hfa] at hsome
        simp only [Option.some.injEq, Prod.mk.injEq] at hsome
        obtain ⟨rfl, rfl⟩ := hsome
        obtain ⟨hj1, hget, hm1tol, hm1a, hmin, hstrict⟩ := ih a j1 m1 hfa
        refine ⟨by simpa using Nat.succ_lt_succ hj1, by simpa using hget, hm1tol,
          lt_trans hm1a h.2, ?_, ?_⟩
        · intro d hd hdtol _
          rcases List.mem_cons.mp hd with rfl | hdrest
          · exact le_of_lt hm1a
          · by_cases hda : d < a
            · exact hmin d hdrest hdtol hda
            · exact le_trans (le_of_lt hm1a) (le_of_not_lt hda)
        · intro d hd hdtol _
          rw [List.take_succ_cons] at hd
          rcases List.mem_cons.mp hd with rfl | hdtake
          · exact hm1a
          · by_cases hda : d < a
            · exact hstrict d hdtake hdtol hda
            · exact lt_of_lt_of_le hm1a (le_of_not_lt hda)
    · rw [firstArgminBelow, if_neg h] at hsome
      cases hfa : firstArgminBelow rest tol bd with
      | none =>
        rw [hfa] at hsome
        simp at hsome
      | some p =>
        obtain ⟨j1, m1⟩ := p
        rw [hfa] at hsome
        simp only [Option.some.injEq, Prod.mk.injEq] at hsome
        obtain ⟨rfl, rfl⟩ := hsome
        obtain ⟨hj1, hget, hm1tol, hm1bd, hmin, hstrict⟩ := ih bd j1 m1 hfa
        refine ⟨by simpa using Nat.succ_lt_succ hj1, by simpa using hget, hm1tol, hm1bd, ?_, ?_⟩
        · intro d hd hdtol hdbd
          rcases List.mem_cons.mp hd with rfl | hdrest
          · exact absurd ⟨hdtol, hdbd⟩ h
          · exact hmin d hdrest hdtol hdbd
        · intro d hd hdtol hdbd
          rw [List.take_succ_cons] at hd
          rcases List.mem_cons.mp hd with rfl | hdtake
          · exact absurd ⟨hdtol, hdbd⟩ h
          · exact hstrict d hdtake hdtol hdbd

/-- C3: `FindBestMatch` over the gallery's distance list with a positive
tolerance: if no distance is within tolerance (in particular on an empty
gallery) the result is the sentinel `(-1, 0)`; otherwise the result is
`(j, distances[j])` where `j` is the first index attaining the minimum
among the qualifying (≤ tolerance) distances — the returned distance
qualifies, no qualifying distance is smaller, and every earlier
qualifying distance is strictly larger (first occurrence wins ties).
Since a genuine match always carries a non-negative index `Int.ofNat j`,
the sentinel `(-1, 0)` is distinct from a zero-distance match `(0, 0)`
at index 0. -/
theorem findBestMatch_spec (l : List ℚ) (tol : ℚ) (htol : 0 < tol) :
    ((∀ d ∈ l, ¬d ≤ tol) → findBestMatchDists l tol = (-1, 0)) ∧
    (∀ d0 ∈ l, d0 ≤ tol →
      ∃ j, ∃ hj : j < l.length,
        findBestMatchDists l tol = (Int.ofNat j, l.get ⟨j, hj⟩) ∧
        l.get ⟨j, hj⟩ ≤ tol ∧
        (∀ d ∈ l, d ≤ tol → l.get ⟨j, hj⟩ ≤ d) ∧
        (∀ d ∈ l.take j, d ≤ tol → l.get ⟨j, hj⟩ < d)) := by
  have htol2 : ¬tol ≤ 0 := not_le.mpr htol
  constructor
  · intro hall
    by_cases hl : l.length = 0
    · simp [findBestMatchDists, hl]
    · have hnone : firstArgminBelow l tol (tol + 1) = none :=
        (firstArgminBelow_none_iff tol l (tol + 1)).mpr (fun d hd hc => hall d hd hc.1)
      simp only [findBestMatchDists, hl, if_false, if_neg htol2]
      rw [findBestMatchScan_eq tol l 0 (-1) (tol + 1), hnone]
      simp
  · intro d0 hd0 hd0tol
    have hlne : l.length ≠ 0 := by
      intro h0
      rw [List.length_eq_zero.mp h0] at hd0
      simp at hd0
    cases hfa : firstArgminBelow l tol (tol + 1) with
    | none =>
      exfalso
      exact (firstArgminBelow_none_iff tol l (tol + 1)).mp hfa d0 hd0
        ⟨hd0tol, by linarith⟩
    | some p =>
      obtain ⟨j, m⟩ := p
      obtain ⟨hj, hget, hmtol, _, hmin, hstrict⟩ :=
        firstArgminBelow_some_spec tol l (tol + 1) j m hfa
      refine ⟨j, hj, ?_, ?_, ?_, ?_⟩
      · simp only [findBestMatchDists, hlne, if_false, if_neg htol2]
        rw [findBestMatchScan_eq tol l 0 (-1) (tol + 1), hfa]
        have hne : Int.ofNat (0 + j) = -1 → False := by
          simp only [Int.ofNat_eq_coe]
          omega
        simp only [hget]
        split
        · next heq => exact absurd heq hne
        · next => simp
      · rw [hget]; exact hmtol
      · intro d hd hdtol
        rw [hget]; exact hmin d hd hdtol (by linarith)
      · intro d hd hdtol
        rw [hget]; exact hstrict d hd hdtol (by linarith)

/-- C3 witness: the spec's own example — distances `{0.9, 0.3, 0.3}`,
tolerance `0.6`, qualifying distance `0.3` present — instantiating the
qualifying branch of the characterization. -/
theorem findBestMatch_spec_witness :
    ∃ j, ∃ hj : j < distancesDemo.length,
      findBestMatchDists distancesDemo (3 / 5) = (Int.ofNat j, distancesDemo.get ⟨j, hj⟩) ∧
      distancesDemo.get ⟨j, hj⟩ ≤ 3 / 5 ∧
      (∀ d ∈ distancesDemo, d ≤ 3 / 5 → distancesDemo.get ⟨j, hj⟩ ≤ d) ∧
      (∀ d ∈ distancesDemo.take j, d ≤ 3 / 5 → distancesDemo.get ⟨j, hj⟩ < d) :=
  (findBestMatch_spec distancesDemo (3 / 5) (by norm_num)).2 (3 / 10)
    (by norm_num [distancesDemo]) (by norm_num)

/-- The spec's `BestMatch` example evaluated: with gallery distances
`{0.9, 0.3, 0.3}` and tolerance `0.6` the result is index 1 (the first of
the tied minimal qualifying distances) with distance `0.3`. -/
theorem findBestMatchDists_demo : findBestMatchDists distancesDemo (3 / 5) = (1, 3 / 10) := by
  norm_num [findBestMatchDists, findBestMatchScan, distancesDemo]

/-! ### Codec lemmas -/

theorem natLE_length (n w : Nat) : (natLE n w).length = n := by
  induction n generalizing w with
  | zero => simp [natLE]
  | succ n ih => simp [natLE, ih]

theorem bytesToNatLE_natLE (n w : Nat) : bytesToNatLE (natLE n w) = w % 256 ^ n := by
  induction n generalizing w with
  | zero => simp [natLE, bytesToNatLE, Nat.mod_one]
  | succ n ih =>
    simp only [natLE, bytesToNatLE, List.foldr_cons]
    have hfold : (natLE n (w / 256)).foldr (fun b acc => b + 256 * acc) 0 =
        bytesToNatLE (natLE n (w / 256)) := rfl
    rw [hfold, ih, pow_succ', Nat.mod_mul]

theorem readBytes_exact (b rest : List Nat) (n : Nat) (hb : b.length = n) :
    readBytes n (b ++ rest) = some (b, rest) := by
  subst hb
  simp [readBytes, List.length_append, List.take_left, List.drop_left]

theorem readBytes_short (n : Nat) (data : List Nat) (h : data.length < n) :
    readBytes n data = none := by
  simp [readBytes, h]

theorem readF64_encode (w : Nat) (rest : List Nat) (hw : w < 2 ^ 64) :
    readF64 (natLE 8 w ++ rest) = some (w, rest) := by
  have hmod : bytesToNatLE (natLE 8 w) = w := by
    rw [bytesToNatLE_natLE]
    exact Nat.mod_eq_of_lt (by norm_num at hw ⊢; omega)
  rw [readF64, readBytes_exact (natLE 8 w) rest 8 (natLE_length 8 w)]
  simp [hmod]

theorem readF64s_encode (e : List Nat) (rest : List Nat) (he : ∀ w ∈ e, w < 2 ^ 64) :
    readF64s e.length ((e.map (natLE 8)).flatten ++ rest) = some (e, rest) := by
  induction e with
  | nil => simp [readF64s]
  | cons w tail ih =>
    simp only [List.map_cons, List.flatten_cons, List.length_cons, List.append_assoc]
    simp only [readF64s]
    rw [readF64_encode w _ (he w (List.mem_cons_self w tail))]
    simp only [Option.some_bind]
    rw [ih (fun v hv => he v (List.mem_cons_of_mem w hv))]
    simp

theorem readEncodingsLoop_encode (encs : List (List Nat)) (rest : List Nat)
    (h2 : ∀ e ∈ encs, e.length = 128) (h3 : ∀ e ∈ encs, ∀ w ∈ e, w < 2 ^ 64) :
    readEncodingsLoop encs.length ((encs.map EncodingToBytes).flatten ++ rest) =
      some (encs, rest) := by
  induction encs with
  | nil => simp [readEncodingsLoop]
  | cons e tail ih =>
    simp only [List.map_cons, List.flatten_cons, List.length_cons, List.append_assoc]
    simp only [readEncodingsLoop]
    have hrd : readF64s 128 (EncodingToBytes e ++ ((tail.map EncodingToBytes).flatten ++ rest)) =
        some (e, (tail.map EncodingToBytes).flatten ++ rest) := by
      have h128 := h2 e (List.mem_cons_self e tail)
      have := readF64s_encode e ((tail.map EncodingToBytes).flatten ++ rest)
        (h3 e (List.mem_cons_self e tail))
      rw [h128] at this
      exact this
    rw [hrd]
    simp only [Option.some_bind]
    rw [ih (fun v hv => h2 v (List.mem_cons_of_mem e hv))
      (fun v hv => h3 v (List.mem_cons_of_mem e hv))]
    simp

theorem readF64s_short (n : Nat) (data : List Nat) (h : data.length < 8 * n) :
    readF64s n data = none := by
  induction n generalizing data with
  | zero => exact absurd h (by omega)
  | succ n ih =>
    by_cases h8 : data.length < 8
    · simp [readF64s, readF64, readBytes, h8]
    · have hf : readF64 data = some (bytesToNatLE (data.take 8), data.drop 8) := by
        simp [readF64, readBytes, h8]
      simp only [readF64s]
      rw [hf]
      simp only [Option.some_bind]
      rw [ih (data.drop 8) (by simp only [List.length_drop]; omega)]
      simp

theorem readF64s_full (n : Nat) (data : List Nat) (h : 8 * n ≤ data.length) :
    readF64s n data = some (leWords n data, data.drop (8 * n)) := by
  induction n generalizing data with
  | zero => simp [readF64s, leWords]
  | succ n ih =>
    have h8 : ¬data.length < 8 := by omega
    have hf : readF64 data = some (bytesToNatLE (data.take 8), data.drop 8) := by
      simp [readF64, readBytes, h8]
    simp only [readF64s, leWords]
    rw [hf]
    simp only [Option.some_bind]
    rw [ih (data.drop 8) (by simp only [List.length_drop]; omega)]
    have hd : (data.drop 8).drop (8 * n) = data.drop (8 * (n + 1)) := by
      rw [List.drop_drop]
      congr 1
      omega
    simp [hd]

theorem readEncodingsLoop_short (n : Nat) (data : List Nat) (h : data.length < 1024 * n) :
    readEncodingsLoop n data = none := by
  induction n generalizing data with
  | zero => exact absurd h (by omega)
  | succ n ih =>
    by_cases hbig : data.length < 1024
    · have hnone : readF64s 128 data = none := readF64s_short 128 data (by omega)
      simp [readEncodingsLoop, hnone]
    · have hfull : readF64s 128 data = some (leWords 128 data, data.drop 1024) := by
        have := readF64s_full 128 data (by omega)
        simpa using this
      simp only [readEncodingsLoop]
      rw [hfull]
      simp only [Option.some_bind]
      rw [ih (data.drop 1024) (by simp only [List.length_drop]; omega)]
      simp

theorem leWords_length (n : Nat) (data : List Nat) : (leWords n data).length = n := by
  induction n generalizing data with
  | zero => simp [leWords]
  | succ n ih => simp [leWords, ih]

theorem leWords_take (n : Nat) (data : List Nat) :
    leWords n (data.take (8 * n)) = leWords n data := by
  induction n generalizing data with
  | zero => simp [leWords]
  | succ n ih =>
    simp only [leWords]
    have hmin : min 8 (8 * (n + 1)) = 8 := by omega
    have h1 : 8 * (n + 1) - 8 = 8 * n := by omega
    rw [List.take_take, hmin, List.drop_take, h1, ih]

/-! ### Codec theorems -/

/-- C8 amended: the multi-descriptor stream round-trips —
`ReadEncodings (WriteEncodings l) = l` — for every list of fewer than
`2^32` descriptors (the 4-byte count stores `uint32(len(l))`, i.e. the
length mod `2^32`, so longer lists do not round-trip), bit-identical at
the level of the 64-bit patterns of the 128 doubles of each descriptor. -/
theorem writeRead_roundtrip (encs : List (List Nat)) (h1 : encs.length < 2 ^ 32)
    (h2 : ∀ e ∈ encs, e.length = 128) (h3 : ∀ e ∈ encs, ∀ w ∈ e, w < 2 ^ 64) :
    ReadEncodings (WriteEncodings encs) = some encs := by
  have hr : readBytes 4 (natLE 4 encs.length ++ (encs.map EncodingToBytes).flatten) =
      some (natLE 4 encs.length, (encs.map EncodingToBytes).flatten) :=
    readBytes_exact _ _ 4 (natLE_length 4 encs.length)
  simp only [WriteEncodings, ReadEncodings]
  rw [hr]
  simp only [Option.some_bind]
  have hc : bytesToNatLE (natLE 4 encs.length) = encs.length := by
    rw [bytesToNatLE_natLE]
    exact Nat.mod_eq_of_lt (by norm_num at h1 ⊢; omega)
  rw [hc]
  have hloop := readEncodingsLoop_encode encs [] h2 h3
  rw [List.append_nil] at hloop
  rw [hloop]
  rfl

/-- C8 witness: the amended round-trip at the one-element gallery holding
the all-zero descriptor. -/
theorem writeRead_roundtrip_witness :
    ReadEncodings (WriteEncodings [zeroEnc128]) = some [zeroEnc128] :=
  writeRead_roundtrip [zeroEnc128] (by norm_num)
    (by intro e he; simp [zeroEnc128] at he; simp [he, zeroEnc128])
    (by intro e he w hw; simp [zeroEnc128] at he; subst he; simp [zeroEnc128] at hw; simp [hw])

/-- C8 counterexample: the round-trip fails on a gallery of `2^32`
descriptors — `uint32(len)` truncates the count to 0, so the written
stream announces zero descriptors and decoding returns the empty list,
not the original list. -/
theorem writeRead_count_truncates :
    ReadEncodings (WriteEncodings encsBig) = some [] ∧
    some ([] : List (List Nat)) ≠ some encsBig := by
  have hlen : encsBig.length = 2 ^ 32 := List.length_replicate _ _
  constructor
  · have hr : readBytes 4 (natLE 4 encsBig.length ++ (encsBig.map EncodingToBytes).flatten) =
        some (natLE 4 encsBig.length, (encsBig.map EncodingToBytes).flatten) :=
      readBytes_exact _ _ 4 (natLE_length 4 encsBig.length)
    have hc : bytesToNatLE (natLE 4 encsBig.length) = 0 := by
      rw [bytesToNatLE_natLE, hlen]
      norm_num
    simp only [WriteEncodings, ReadEncodings]
    rw [hr, Option.some_bind, hc]
    rfl
  · intro hcontra
    have hnil : ([] : List (List Nat)) = encsBig := Option.some.inj hcontra
    have h0 := congrArg List.length hnil
    rw [hlen] at h0
    simp only [List.length_nil] at h0
    exact absurd h0 (by norm_num)

/-- C9: binary decoding rejects truncated streams: a multi-descriptor
stream whose payload ends before the `count` announced descriptors have
been read, a stream shorter than its own 4-byte count prefix, and a
single-descriptor input shorter than 1024 bytes all decode to an error
(`none`), never to a successful partially-filled result. -/
theorem decode_rejects_truncation (count : Nat) (rest data short : List Nat)
    (hcount : count < 2 ^ 32) (hrest : rest.length < 1024 * count)
    (hdata : data.length < 1024) (hshort : short.length < 4) :
    ReadEncodings (natLE 4 count ++ rest) = none ∧
    BytesToEncoding data = none ∧
    ReadEncodings short = none := by
  refine ⟨?_, ?_, ?_⟩
  · have hr := readBytes_exact (natLE 4 count) rest 4 (natLE_length 4 count)
    simp only [ReadEncodings]
    rw [hr]
    simp only [Option.some_bind]
    have hc : bytesToNatLE (natLE 4 count) = count := by
      rw [bytesToNatLE_natLE]
      exact Nat.mod_eq_of_lt (by norm_num at hcount ⊢; omega)
    rw [hc, readEncodingsLoop_short count rest hrest]
    rfl
  · simp only [BytesToEncoding]
    rw [readF64s_short 128 data (by omega)]
    rfl
  · simp only [ReadEncodings]
    rw [readBytes_short 4 short hshort]
    rfl

/-- C9 witness: truncation rejection at a stream announcing one descriptor
with an empty payload, an empty single-descriptor input, and an empty
stream. -/
theorem decode_rejects_truncation_witness :
    ReadEncodings (natLE 4 1 ++ []) = none ∧
    BytesToEncoding [] = none ∧
    ReadEncodings [] = none :=
  decode_rejects_truncation 1 [] [] [] (by norm_num) (by norm_num) (by norm_num) (by norm_num)

/-- C10: single-descriptor decoding succeeds on every input of at least
1024 bytes, returning exactly the 128 little-endian 64-bit words held in
the first 1024 bytes (trailing bytes are ignored), and returns an error
precisely when the input is shorter than 1024 bytes. -/
theorem bytesToEncoding_spec (data : List Nat) :
    (1024 ≤ data.length →
      BytesToEncoding data = some (leWords 128 data) ∧
      (leWords 128 data).length = 128 ∧
      leWords 128 data = leWords 128 (data.take 1024) ∧
      BytesToEncoding data = BytesToEncoding (data.take 1024)) ∧
    (data.length < 1024 → BytesToEncoding data = none) := by
  constructor
  · intro h
    have hfull := readF64s_full 128 data (by omega)
    have h1 : BytesToEncoding data = some (leWords 128 data) := by
      simp only [BytesToEncoding]
      rw [hfull]
      rfl
    have htk : leWords 128 data = leWords 128 (data.take 1024) := by
      have := leWords_take 128 data
      norm_num at this
      exact this.symm
    refine ⟨h1, leWords_length _ _, htk, ?_⟩
    have hlen2 : 8 * 128 ≤ (data.take 1024).length := by
      simp only [List.length_take]
      omega
    have hfull2 := readF64s_full 128 (data.take 1024) hlen2
    have h2b : BytesToEncoding (data.take 1024) = some (leWords 128 (data.take 1024)) := by
      simp only [BytesToEncoding]
      rw [hfull2]
      rfl
    rw [h1, h2b, htk]
  · intro h
    simp only [BytesToEncoding]
    rw [readF64s_short 128 data (by omega)]
    rfl

/-- C10 witness: decoding 1024 zero bytes succeeds with the first-1024-byte
word list, and decoding the empty input fails. -/
theorem bytesToEncoding_spec_witness :
    BytesToEncoding (List.replicate 1024 0) = some (leWords 128 (List.replicate 1024 0)) ∧
    BytesToEncoding ([] : List Nat) = none :=
  ⟨((bytesToEncoding_spec (List.replicate 1024 0)).1
      (by simp only [List.length_replicate, le_refl])).1,
    (bytesToEncoding_spec []).2 (by simp only [List.length_nil]; norm_num)⟩

end GoFaceRec
